import Mathlib

/-
  Verification of the BF interpreter repository (BF-Explorer / BF-Run).

  Shallow embedding of `src/BF-Explorer/BF-Explorer.ino` (the paged
  `cVirtualMemory` variant):

  * `cVirtualMemory` models the single-resident-page write-back virtual
    memory class.  The backing SD swap file is modelled as a total byte
    function `store : Nat -> Nat` together with its cached `fileSize`;
    `pageData` is the resident page buffer (only indices `< pageSize` are
    ever dereferenced by the code).
  * The body of `loop()` is modelled by `tick`; the serial command handlers
    by `handlerS`, `handlerL`, `handlerR`, `handlerD`.

  Machine integers: `uint8_t` values are `Nat` reduced mod 256 at each
  write, the `uint16_t` step counter wraps mod 65536, `int32_t` addresses
  (`addrIP`, `addrMP`) are `Int`, and the implicit int32 -> uint32
  conversion at every `cVirtualMemory` call site goes through `toU32`.
-/

/-- The `cVirtualMemory` class of BF-Explorer.ino: a single page buffer over
a byte-addressable backing store (the SD file `_fp`, modelled as the total
function `store` plus the cached `_fileSize`). -/
structure cVirtualMemory where
  store : Nat → Nat
  fileSize : Nat
  pageData : Nat → Nat
  pageBaseAddr : Nat
  pageSize : Nat
  pageChanged : Bool
  isOpen : Bool

/-- Models `bool isLoaded(void) { return(_fp.isOpen()); }`. -/
def cVirtualMemory.isLoaded (m : cVirtualMemory) : Bool := m.isOpen

/-- Models `bool isInBounds(uint32_t addr) { return (addr <= _fileSize); }`. -/
def cVirtualMemory.isInBounds (m : cVirtualMemory) (addr : Nat) : Bool :=
  addr ≤ m.fileSize

/-- Method `loadPage`: seek to `addr`, read `_pageSize` bytes into the buffer, set
the base address and clear the dirty flag. -/
def cVirtualMemory.loadPage (m : cVirtualMemory) (addr : Nat) : cVirtualMemory :=
  { m with
    pageData := fun k => if k < m.pageSize then m.store (addr + k) else m.pageData k
    pageBaseAddr := addr
    pageChanged := false }

/-- Method `savePage`: if the page is dirty, write the buffer back to the store at
`addr` (the call sites always pass `_pageBaseAddr`). -/
def cVirtualMemory.savePage (m : cVirtualMemory) (addr : Nat) : cVirtualMemory :=
  if m.pageChanged then
    { m with
      store := fun a =>
        if addr ≤ a ∧ a < addr + m.pageSize then m.pageData (a - addr) else m.store a }
  else m

/-- Method `uint8_t get(uint32_t addr)`: on a page miss, save the current page and
load the page containing `addr`; then read the byte from the buffer. -/
def cVirtualMemory.get (m : cVirtualMemory) (addr : Nat) : Nat × cVirtualMemory :=
  if addr < m.pageBaseAddr ∨ m.pageBaseAddr + m.pageSize ≤ addr then
    let m2 := (m.savePage m.pageBaseAddr).loadPage (addr / m.pageSize * m.pageSize)
    (m2.pageData (addr - m2.pageBaseAddr), m2)
  else
    (m.pageData (addr - m.pageBaseAddr), m)

/-- Method `void set(uint32_t addr, uint8_t value)`: on a page miss, save and load
as in `get`; then write the byte into the buffer and mark the page dirty.
The `uint8_t value` parameter truncates the argument mod 256. -/
def cVirtualMemory.set (m : cVirtualMemory) (addr : Nat) (value : Nat) : cVirtualMemory :=
  let m1 :=
    if addr < m.pageBaseAddr ∨ m.pageBaseAddr + m.pageSize ≤ addr then
      (m.savePage m.pageBaseAddr).loadPage (addr / m.pageSize * m.pageSize)
    else m
  { m1 with
    pageData := fun k => if k = addr - m1.pageBaseAddr then value % 256 else m1.pageData k
    pageChanged := true }

/-- Method `bool begin(const char* fname)`: open the file and load the first page.
The file-system outcome is abstracted by `ok` and, on success, by the new
backing bytes `newStore` and file size `newSize`. -/
def cVirtualMemory.begin (m : cVirtualMemory) (ok : Bool) (newStore : Nat → Nat)
    (newSize : Nat) : cVirtualMemory × Bool :=
  if ok then
    (({ m with store := newStore, fileSize := newSize, isOpen := true } :
        cVirtualMemory).loadPage 0, true)
  else
    ({ m with isOpen := false }, false)

/-- The logical byte visible at address `a`: the resident buffer masks the
backing store on the resident page. -/
def cVirtualMemory.content (m : cVirtualMemory) (a : Nat) : Nat :=
  if m.pageBaseAddr ≤ a ∧ a < m.pageBaseAddr + m.pageSize then
    m.pageData (a - m.pageBaseAddr)
  else m.store a

/-- Coherence invariant: a clean resident page agrees with the backing
store.  It holds after every `loadPage` and is preserved by `get`/`set`. -/
def cVirtualMemory.Inv (m : cVirtualMemory) : Prop :=
  m.pageChanged = false → ∀ k, k < m.pageSize → m.pageData k = m.store (m.pageBaseAddr + k)

/-- Constant `const int32_t MEMORY_SIZE = 30000;`. -/
def MEMORY_SIZE : Nat := 30000

/-- Function `clearMemory()`: write 0 to every cell of the data memory through the
paging layer (`memory.set(i, 0)` for `i = 0 .. MEMORY_SIZE-1`). -/
def clearMemory (m : cVirtualMemory) : cVirtualMemory :=
  (List.range MEMORY_SIZE).foldl (fun mm i => mm.set i 0) m

/-- The implicit C++ conversion from `int32_t` to the `uint32_t` parameter
of the `cVirtualMemory` methods (reduction mod 2^32). -/
def toU32 (i : Int) : Nat := (i % 4294967296).toNat

/-- Models `enum { IDLE, RUN, STEP } runMode`. -/
inductive RunMode where
  | IDLE
  | RUN
  | STEP
deriving DecidableEq

/-- Observable serial output of one tick: program output bytes, the two
unterminated-bracket error reports, the no-program report, and the
trace line printed when `listRunning` is on. -/
inductive Msg where
  | out (b : Nat)
  | errPastEnd
  | errBeforeStart
  | errNoProgram
  | trace (ip : Int) (op : Nat) (mp : Int) (pre : Nat)
deriving DecidableEq

/-- The global interpreter/controller state of BF-Explorer.ino:
`program`/`memory` (the two `cVirtualMemory` objects), `addrIP`/`addrMP`
(`int32_t`), `listRunning`, `runMode` and the `uint16_t` `steps` budget. -/
structure Interp where
  program : cVirtualMemory
  memory : cVirtualMemory
  addrIP : Int
  addrMP : Int
  listRunning : Bool
  runMode : RunMode
  steps : Nat

/-- Function `setIdle()`: force the controller to IDLE (the prompt print is pure
output and not modelled). -/
def setIdle (s : Interp) : Interp := { s with runMode := RunMode.IDLE }

/-- The forward bracket scan of `case '['`: `while (count) { ++addrIP;
if (!isInBounds) { error; setIdle; break; } opcode = get(addrIP);
if '[' ++count; if ']' --count; }`.  The returned Bool signals the
out-of-bounds error; the `uint16_t count` is embedded as `Nat` (the loop
only decrements a nonzero counter).  `fuel` bounds the recursion; every
call site passes enough fuel for the in-bounds portion of the scan. -/
def scanFwd (p : cVirtualMemory) (fuel : Nat) (ip : Int) (count : Nat) :
    cVirtualMemory × Int × Bool :=
  if count = 0 then (p, ip, false)
  else
    match fuel with
    | 0 => (p, ip, true)
    | fuel + 1 =>
      let ip2 := ip + 1
      if p.isInBounds (toU32 ip2) then
        let r := p.get (toU32 ip2)
        let count2 := if r.1 = 91 then count + 1 else if r.1 = 93 then count - 1 else count
        scanFwd r.2 fuel ip2 count2
      else (p, ip2, true)

/-- The backward bracket scan of `case ']'` (mirror of `scanFwd`:
`--addrIP`, `']'` increments and `'['` decrements the counter; leaving the
file at the front is detected by the same `isInBounds` check applied to the
uint32 image of the now-negative `addrIP`). -/
def scanBwd (p : cVirtualMemory) (fuel : Nat) (ip : Int) (count : Nat) :
    cVirtualMemory × Int × Bool :=
  if count = 0 then (p, ip, false)
  else
    match fuel with
    | 0 => (p, ip, true)
    | fuel + 1 =>
      let ip2 := ip - 1
      if p.isInBounds (toU32 ip2) then
        let r := p.get (toU32 ip2)
        let count2 := if r.1 = 93 then count + 1 else if r.1 = 91 then count - 1 else count
        scanBwd r.2 fuel ip2 count2
      else (p, ip2, true)

/-- Body of `case '['` (also reached by fall-through from `case ','`):
if the cell is zero, run the forward scan; on scan error report, go Idle
and leave `addrIP` at the failing position (the unconditional `++addrIP`
of the tick still follows). -/
def bracketOpen (s : Interp) (inp : List Nat) (mem : Nat) : Interp × List Nat × List Msg :=
  if mem = 0 then
    let r := scanFwd s.program (s.program.fileSize + 2) s.addrIP 1
    if r.2.2 then
      (setIdle { s with program := r.1, addrIP := r.2.1 }, inp, [Msg.errPastEnd])
    else
      ({ s with program := r.1, addrIP := r.2.1 }, inp, [])
  else (s, inp, [])

/-- Body of `case ']'`: if the cell is nonzero, run the backward scan. -/
def bracketClose (s : Interp) (inp : List Nat) (mem : Nat) : Interp × List Nat × List Msg :=
  if mem ≠ 0 then
    let r := scanBwd s.program (s.program.fileSize + 2) s.addrIP 1
    if r.2.2 then
      (setIdle { s with program := r.1, addrIP := r.2.1 }, inp, [Msg.errBeforeStart])
    else
      ({ s with program := r.1, addrIP := r.2.1 }, inp, [])
  else (s, inp, [])

/-- The `switch (opcode)` dispatch.  Opcode bytes: `'>' = 62`, `'<' = 60`,
`'+' = 43`, `'-' = 45`, `'.' = 46`, `',' = 44`, `'[' = 91, `']' = 93`.
`case ','` has no `break` in the source and falls through into `case '['`
with the freshly read byte as the cell value; this is modelled by the
direct call of `bracketOpen` in the `opcode = 44` branch.  `getChar()` is
modelled by consuming the head of `inp` (the blocking wait is outside the
model; call sites supply a nonempty `inp` when `,` is executed). -/
def dispatch (s : Interp) (inp : List Nat) (mem : Nat) (opcode : Nat) :
    Interp × List Nat × List Msg :=
  if opcode = 62 then ({ s with addrMP := s.addrMP + 1 }, inp, [])
  else if opcode = 60 then ({ s with addrMP := s.addrMP - 1 }, inp, [])
  else if opcode = 43 then
    ({ s with memory := s.memory.set (toU32 s.addrMP) ((mem + 1) % 256) }, inp, [])
  else if opcode = 45 then
    ({ s with memory := s.memory.set (toU32 s.addrMP) ((mem + 255) % 256) }, inp, [])
  else if opcode = 46 then (s, inp, [Msg.out mem])
  else if opcode = 44 then
    let c := inp.headD 0 % 256
    bracketOpen { s with memory := s.memory.set (toU32 s.addrMP) c } inp.tail c
  else if opcode = 91 then bracketOpen s inp mem
  else if opcode = 93 then bracketClose s inp mem
  else (s, inp, [])

/-- The interpreter part of `loop()` for a non-IDLE tick: fetch cell and
opcode, go Idle if `addrIP` is out of bounds, otherwise emit the optional
trace line, dispatch the opcode and do the unconditional `++addrIP`. -/
def tickCore (s : Interp) (inp : List Nat) : Interp × List Nat × List Msg :=
  let rm := s.memory.get (toU32 s.addrMP)
  let rp := s.program.get (toU32 s.addrIP)
  let s1 : Interp := { s with memory := rm.2, program := rp.2 }
  let s2 := if s1.program.isInBounds (toU32 s1.addrIP) then s1 else setIdle s1
  if s2.runMode = RunMode.RUN ∨ s2.runMode = RunMode.STEP then
    let pre : List Msg :=
      if s2.listRunning then [Msg.trace s2.addrIP rp.1 s2.addrMP rm.1] else []
    let r := dispatch s2 inp rm.1 rp.1
    ({ r.1 with addrIP := r.1.addrIP + 1 }, r.2.1, pre ++ r.2.2)
  else (s2, inp, [])

/-- The STEP countdown at the end of `loop()`: `steps--` (uint16 wrap) and
`setIdle` exactly when the counter reaches 0.  It runs on the post-dispatch
mode, so a tick that already went Idle skips it. -/
def stepCount (s : Interp) : Interp :=
  if s.runMode = RunMode.STEP then
    let st := (s.steps + 65535) % 65536
    if st = 0 then setIdle { s with steps := st } else { s with steps := st }
  else s

/-- One full scheduler tick of `loop()` (the `CP.run()` command servicing
is external and modelled by the handler functions below). -/
def tick (s : Interp) (inp : List Nat) : Interp × List Nat × List Msg :=
  if s.runMode = RunMode.IDLE then (s, inp, [])
  else
    let r := tickCore s inp
    (stepCount r.1, r.2.1, r.2.2)

/-- Runs `n` consecutive scheduler ticks, threading the input stream and
accumulating the output. -/
def tickN : Nat → Interp → List Nat → Interp × List Nat × List Msg
  | 0, s, inp => (s, inp, [])
  | n + 1, s, inp =>
    let r := tickN n s inp
    let r2 := tick r.1 r.2.1
    (r2.1, r2.2.1, r.2.2 ++ r2.2.2)

/-- Handler `handlerS`: enter STEP mode; an empty parameter defaults to one step,
otherwise the `strtoul` result is truncated into the `uint16_t steps`. -/
def handlerS (s : Interp) (param : Option Nat) : Interp :=
  { s with runMode := RunMode.STEP,
           steps := match param with
             | none => 1
             | some n => n % 65536 }

/-- Handler `handlerL`: only from IDLE, `program.begin`; on success clear the data
memory and reset both pointers.  In every case the trailing `setIdle()`
runs.  The file-system outcome of `begin` is abstracted by `ok`,
`newStore`, `newSize`. -/
def handlerL (s : Interp) (ok : Bool) (newStore : Nat → Nat) (newSize : Nat) : Interp :=
  if s.runMode = RunMode.IDLE then
    let r := s.program.begin ok newStore newSize
    if r.2 then
      setIdle { s with program := r.1, memory := clearMemory s.memory,
                       addrMP := 0, addrIP := 0 }
    else setIdle { s with program := r.1 }
  else setIdle s

/-- Handler `handlerR`: only from IDLE and only with a loaded program, switch to
RUN.  It touches neither the data memory nor the pointers. -/
def handlerR (s : Interp) : Interp × List Msg :=
  if s.runMode = RunMode.IDLE then
    if s.program.isLoaded then ({ s with runMode := RunMode.RUN }, [])
    else (s, [Msg.errNoProgram])
  else (s, [])

/-- Function `htoa`: one hex digit as an ASCII code. -/
def htoa (n : Nat) : Nat :=
  if n < 10 then n + 48
  else if 10 ≤ n ∧ n ≤ 15 then 97 + n - 10
  else 63

/-- One dump loop of `handlerD`: `DUMP_SIZE` iterations, each reading
`memory.get(addr + 1)` (the loop index `i` is not used in the address, as
in the source).  Returns the values read and the list of addresses
passed to `get`. -/
def dumpReads (m : cVirtualMemory) (addr : Nat) : Nat → cVirtualMemory × List Nat × List Nat
  | 0 => (m, [], [])
  | n + 1 =>
    let r := dumpReads m addr n
    let g := r.1.get (addr + 1)
    (g.2, r.2.1 ++ [g.1], r.2.2 ++ [addr + 1])

/-- Handler `handlerD`: the memory dump.  First loop renders the hex column
(`htoa(m >> 4)`, `htoa(m & 0xf)`), second loop the ASCII column
(`m <= 0xa ? '.' : m`).  Returns the final memory object, the two rendered
columns and the concatenated list of all addresses read. -/
def handlerD (m : cVirtualMemory) (addr : Nat) :
    cVirtualMemory × List (Nat × Nat) × List Nat × List Nat :=
  let h := dumpReads m addr 8
  let a := dumpReads h.1 addr 8
  (a.1,
   h.2.1.map (fun v => (htoa (v / 16), htoa (v % 16))),
   a.2.1.map (fun v => if v ≤ 10 then 46 else v),
   h.2.2 ++ a.2.2)

/-- Number of positions `k` in `[a, a + n)` with `f k = v`. -/
def cnt (f : Nat → Nat) (v a : Nat) : Nat → Nat
  | 0 => 0
  | n + 1 => cnt f v a n + (if f (a + n) = v then 1 else 0)

/-- Position `j` is the matching `]` of the `[` at `i` in the instruction stream
`f`: the nesting counter of the forward scan (1 at `i`, +1 per `[`, -1 per
`]` over `(i, j]`) stays positive strictly before `j` and reaches 0 exactly
at `j`. -/
def MatchFwd (f : Nat → Nat) (i j : Nat) : Prop :=
  i < j ∧ f i = 91 ∧ f j = 93 ∧
  (∀ m, m < j - i → 0 < m → cnt f 93 (i + 1) m < 1 + cnt f 91 (i + 1) m) ∧
  cnt f 93 (i + 1) (j - i) = 1 + cnt f 91 (i + 1) (j - i)

/-- Position `i` is the matching `[` of the `]` at `j`: the nesting counter of the
backward scan (1 at `j`, +1 per `]`, -1 per `[` over `[p, j)`) stays
positive strictly after `i` and reaches 0 exactly at `i`. -/
def MatchBwd (f : Nat → Nat) (i j : Nat) : Prop :=
  i < j ∧ f i = 91 ∧ f j = 93 ∧
  (∀ p, p < j → i < p → cnt f 91 p (j - p) < 1 + cnt f 93 p (j - p)) ∧
  cnt f 91 i (j - i) = 1 + cnt f 93 i (j - i)

instance MatchFwd.instDecidable (f : Nat → Nat) (i j : Nat) : Decidable (MatchFwd f i j) := by
  unfold MatchFwd
  infer_instance

instance MatchBwd.instDecidable (f : Nat → Nat) (i j : Nat) : Decidable (MatchBwd f i j) := by
  unfold MatchBwd
  infer_instance

/-- An access against a `cVirtualMemory`, for the read-after-write
property. -/
inductive Access where
  | rd (a : Nat)
  | wr (a : Nat) (v : Nat)

/-- The address an access would write to, if any. -/
def Access.writes : Access → Option Nat
  | rd _ => none
  | wr a _ => some a

/-- The address an access touches. -/
def Access.addr : Access → Nat
  | rd a => a
  | wr a _ => a

def applyAcc (m : cVirtualMemory) : Access → cVirtualMemory
  | .rd a => (m.get a).2
  | .wr a v => m.set a v

def applyAccs (m : cVirtualMemory) (l : List Access) : cVirtualMemory :=
  l.foldl applyAcc m

/-
  Concrete states used by the witness and counterexample theorems.  Each
  `cVirtualMemory` literal lists: store, fileSize, pageData, pageBaseAddr,
  pageSize, pageChanged, isOpen.  A clean resident page (pageChanged =
  false) is set up with `pageData` agreeing with `store` so that the
  coherence invariant holds definitionally.
-/

/-- Program bytes of a two-byte file `"[]"`. -/
def wBytesBr : Nat → Nat := fun a => if a = 0 then 91 else if a = 1 then 93 else 0

/-- The program object after `"[]"` has been loaded (page size 200 as in
`program(200)`). -/
def wProgBr : cVirtualMemory := ⟨wBytesBr, 2, wBytesBr, 0, 200, false, true⟩

/-- Program bytes of a two-byte file `",]"`. -/
def wBytesComma : Nat → Nat := fun a => if a = 0 then 44 else if a = 1 then 93 else 0

/-- The program object after `",]"` has been loaded. -/
def wProgComma : cVirtualMemory := ⟨wBytesComma, 2, wBytesComma, 0, 200, false, true⟩

/-- Program bytes of a one-byte file `"+"`. -/
def wBytesPlus : Nat → Nat := fun a => if a = 0 then 43 else 0

/-- The program object after `"+"` has been loaded. -/
def wProgPlus : cVirtualMemory := ⟨wBytesPlus, 1, wBytesPlus, 0, 200, false, true⟩

/-- Program bytes of a one-byte file `"-"`. -/
def wBytesMinus : Nat → Nat := fun a => if a = 0 then 45 else 0

/-- The program object after `"-"` has been loaded. -/
def wProgMinus : cVirtualMemory := ⟨wBytesMinus, 1, wBytesMinus, 0, 200, false, true⟩

/-- Program bytes of a two-byte file `"++"`. -/
def wBytesPP : Nat → Nat := fun a => if a < 2 then 43 else 0

/-- The program object after `"++"` has been loaded. -/
def wProgPP : cVirtualMemory := ⟨wBytesPP, 2, wBytesPP, 0, 200, false, true⟩

/-- An all-zero data memory object (page size 100 as in `memory(100)`). -/
def wMemZero : cVirtualMemory := ⟨fun _ => 0, MEMORY_SIZE, fun _ => 0, 0, 100, false, true⟩

/-- A data memory whose cell 0 holds 7 (dirty resident page). -/
def wMem7 : cVirtualMemory :=
  ⟨fun _ => 0, MEMORY_SIZE, fun k => if k = 0 then 7 else 0, 0, 100, true, true⟩

/-- A data memory whose cell 0 holds 255 (dirty resident page). -/
def wMem255 : cVirtualMemory :=
  ⟨fun _ => 0, MEMORY_SIZE, fun k => if k = 0 then 255 else 0, 0, 100, true, true⟩

/-- A small memory object with page size 2, used to exercise page
evictions in the read-after-write witness. -/
def wVM2 : cVirtualMemory := ⟨fun _ => 0, 10, fun _ => 0, 0, 2, false, true⟩

namespace cVirtualMemory

theorem div_mul_bounds (a ps : Nat) (hps : 0 < ps) :
    a / ps * ps ≤ a ∧ a < a / ps * ps + ps := by
  have h1 := Nat.div_add_mod a ps
  have h2 : a % ps < ps := Nat.mod_lt a hps
  have h3 : a / ps * ps = ps * (a / ps) := Nat.mul_comm _ _
  omega

theorem loadPage_pageBaseAddr (m : cVirtualMemory) (addr : Nat) :
    (m.loadPage addr).pageBaseAddr = addr := rfl

theorem loadPage_pageSize (m : cVirtualMemory) (addr : Nat) :
    (m.loadPage addr).pageSize = m.pageSize := rfl

theorem loadPage_fileSize (m : cVirtualMemory) (addr : Nat) :
    (m.loadPage addr).fileSize = m.fileSize := rfl

theorem loadPage_pageData_lt (m : cVirtualMemory) (addr k : Nat) (h : k < m.pageSize) :
    (m.loadPage addr).pageData k = m.store (addr + k) := by
  simp [loadPage, h]

theorem savePage_pageData (m : cVirtualMemory) (a : Nat) :
    (m.savePage a).pageData = m.pageData := by
  unfold savePage; split <;> rfl

theorem savePage_pageBaseAddr (m : cVirtualMemory) (a : Nat) :
    (m.savePage a).pageBaseAddr = m.pageBaseAddr := by
  unfold savePage; split <;> rfl

theorem savePage_pageSize (m : cVirtualMemory) (a : Nat) :
    (m.savePage a).pageSize = m.pageSize := by
  unfold savePage; split <;> rfl

theorem savePage_fileSize (m : cVirtualMemory) (a : Nat) :
    (m.savePage a).fileSize = m.fileSize := by
  unfold savePage; split <;> rfl

theorem savePage_pageChanged (m : cVirtualMemory) (a : Nat) :
    (m.savePage a).pageChanged = m.pageChanged := by
  unfold savePage; split <;> rfl

/-- Writing the (dirty or clean) resident page back leaves the store equal
to the buffer on the page footprint. -/
theorem savePage_store_in (m : cVirtualMemory) (hInv : m.Inv) (a : Nat)
    (h : m.pageBaseAddr ≤ a ∧ a < m.pageBaseAddr + m.pageSize) :
    (m.savePage m.pageBaseAddr).store a = m.pageData (a - m.pageBaseAddr) := by
  unfold savePage
  split
  · simp only [h, and_self, if_pos]
  · next hcl =>
    have hc : m.pageChanged = false := by
      cases hch : m.pageChanged
      · rfl
      · exact absurd hch hcl
    have := hInv hc (a - m.pageBaseAddr) (by omega)
    rw [this]
    congr 1
    omega

theorem savePage_store_out (m : cVirtualMemory) (a : Nat)
    (h : ¬(m.pageBaseAddr ≤ a ∧ a < m.pageBaseAddr + m.pageSize)) :
    (m.savePage m.pageBaseAddr).store a = m.store a := by
  unfold savePage
  split
  · simp only [if_neg h]
  · rfl

/-- Eviction (save then load) does not change the logical contents. -/
theorem content_evict (m : cVirtualMemory) (hInv : m.Inv) (newBase a : Nat) :
    ((m.savePage m.pageBaseAddr).loadPage newBase).content a = m.content a := by
  have hps : (m.savePage m.pageBaseAddr).pageSize = m.pageSize := savePage_pageSize m _
  unfold content loadPage
  simp only [hps, savePage_pageBaseAddr]
  by_cases hin : newBase ≤ a ∧ a < newBase + m.pageSize
  · rw [if_pos hin, if_pos (by omega)]
    have : newBase + (a - newBase) = a := by omega
    rw [this]
    by_cases hold : m.pageBaseAddr ≤ a ∧ a < m.pageBaseAddr + m.pageSize
    · rw [savePage_store_in m hInv a hold, if_pos hold]
    · rw [savePage_store_out m a hold, if_neg hold]
  · rw [if_neg hin]
    by_cases hold : m.pageBaseAddr ≤ a ∧ a < m.pageBaseAddr + m.pageSize
    · rw [savePage_store_in m hInv a hold, if_pos hold]
    · rw [savePage_store_out m a hold, if_neg hold]

/-- A freshly loaded page satisfies the coherence invariant. -/
theorem Inv_loadPage (m : cVirtualMemory) (addr : Nat) : (m.loadPage addr).Inv := by
  intro _ k hk
  unfold loadPage at hk ⊢
  simp only at hk ⊢
  rw [if_pos hk]

theorem get_fst (m : cVirtualMemory) (hInv : m.Inv) (hps : 0 < m.pageSize) (a : Nat) :
    (m.get a).1 = m.content a := by
  unfold get
  split
  · next hmiss =>
    simp only
    obtain ⟨hle, hgt⟩ := div_mul_bounds a m.pageSize hps
    rw [loadPage_pageBaseAddr]
    rw [loadPage_pageData_lt _ _ _ (by rw [savePage_pageSize]; omega)]
    have hsum : a / m.pageSize * m.pageSize + (a - a / m.pageSize * m.pageSize) = a := by
      omega
    rw [hsum]
    rw [savePage_store_out m a (by omega)]
    unfold content
    rw [if_neg (by omega)]
  · next hhit =>
    unfold content
    rw [if_pos (by omega)]

theorem get_snd_content (m : cVirtualMemory) (hInv : m.Inv) (a x : Nat) :
    ((m.get a).2).content x = m.content x := by
  unfold get
  split
  · exact content_evict m hInv _ x
  · rfl

theorem get_snd_Inv (m : cVirtualMemory) (hInv : m.Inv) (a : Nat) :
    ((m.get a).2).Inv := by
  unfold get
  split
  · exact Inv_loadPage _ _
  · exact hInv

theorem get_snd_pageSize (m : cVirtualMemory) (a : Nat) :
    ((m.get a).2).pageSize = m.pageSize := by
  unfold get
  split
  · simp only [loadPage, savePage_pageSize]
  · rfl

theorem get_snd_fileSize (m : cVirtualMemory) (a : Nat) :
    ((m.get a).2).fileSize = m.fileSize := by
  unfold get
  split
  · simp only [loadPage, savePage_fileSize]
  · rfl

theorem set_pageSize (m : cVirtualMemory) (a v : Nat) :
    (m.set a v).pageSize = m.pageSize := by
  unfold set
  split
  · simp only [loadPage, savePage_pageSize]
  · rfl

theorem set_fileSize (m : cVirtualMemory) (a v : Nat) :
    (m.set a v).fileSize = m.fileSize := by
  unfold set
  split
  · simp only [loadPage, savePage_fileSize]
  · rfl

theorem set_Inv (m : cVirtualMemory) (a v : Nat) : (m.set a v).Inv := by
  intro h
  unfold set at h
  simp at h

/-- Method `set` updates the logical contents pointwise at `addr` (truncated to a
byte) and nowhere else. -/
theorem set_content (m : cVirtualMemory) (hInv : m.Inv) (hps : 0 < m.pageSize)
    (a v x : Nat) :
    (m.set a v).content x = if x = a then v % 256 else m.content x := by
  unfold set
  set m1 := if a < m.pageBaseAddr ∨ m.pageBaseAddr + m.pageSize ≤ a then
      (m.savePage m.pageBaseAddr).loadPage (a / m.pageSize * m.pageSize)
    else m with hm1
  have hcont : m1.content x = m.content x := by
    rw [hm1]
    split
    · exact content_evict m hInv _ x
    · rfl
  have hcontA : ∀ y, m1.content y = m.content y := by
    intro y
    rw [hm1]
    split
    · exact content_evict m hInv _ y
    · rfl
  have hain : m1.pageBaseAddr ≤ a ∧ a < m1.pageBaseAddr + m1.pageSize := by
    rw [hm1]
    split
    · next hmiss =>
      rw [loadPage_pageBaseAddr, loadPage_pageSize, savePage_pageSize]
      exact ⟨(div_mul_bounds a m.pageSize hps).1, (div_mul_bounds a m.pageSize hps).2⟩
    · next hhit => omega
  simp only [content]
  by_cases hx : m1.pageBaseAddr ≤ x ∧ x < m1.pageBaseAddr + m1.pageSize
  · rw [if_pos hx]
    by_cases hxa : x = a
    · subst hxa
      rw [if_pos rfl, if_pos rfl]
    · rw [if_neg (by omega), if_neg hxa]
      have h2 := hcont
      unfold content at h2
      rw [if_pos hx] at h2
      exact h2
  · rw [if_neg hx, if_neg (by omega)]
    have h2 := hcont
    unfold content at h2
    rw [if_neg hx] at h2
    exact h2


theorem applyAcc_content (m : cVirtualMemory) (hInv : m.Inv) (hps : 0 < m.pageSize)
    (acc : Access) (x : Nat) (hno : acc.writes ≠ some x) :
    (applyAcc m acc).content x = m.content x := by
  cases acc with
  | rd a => exact get_snd_content m hInv a x
  | wr a v =>
    have hax : x ≠ a := by
      intro h
      exact hno (by simp [Access.writes, h])
    show (m.set a v).content x = m.content x
    rw [set_content m hInv hps a v x, if_neg hax]

theorem applyAcc_Inv (m : cVirtualMemory) (hInv : m.Inv) (acc : Access) :
    (applyAcc m acc).Inv := by
  cases acc with
  | rd a => exact get_snd_Inv m hInv a
  | wr a v => exact set_Inv m a v

theorem applyAcc_pageSize (m : cVirtualMemory) (acc : Access) :
    (applyAcc m acc).pageSize = m.pageSize := by
  cases acc with
  | rd a => exact get_snd_pageSize m a
  | wr a v => exact set_pageSize m a v

theorem applyAccs_content (l : List Access) :
    ∀ (m : cVirtualMemory), m.Inv → 0 < m.pageSize →
      ∀ x, (∀ acc ∈ l, acc.writes ≠ some x) →
        (applyAccs m l).content x = m.content x := by
  induction l with
  | nil => intro m _ _ x _; rfl
  | cons a l ih =>
    intro m hInv hps x hno
    show ((a :: l).foldl applyAcc m).content x = m.content x
    rw [List.foldl_cons]
    have h1 : (applyAcc m a).Inv := applyAcc_Inv m hInv a
    have h2 : 0 < (applyAcc m a).pageSize := by rw [applyAcc_pageSize]; exact hps
    have h3 := ih (applyAcc m a) h1 h2 x (fun acc hacc => hno acc (List.mem_cons_of_mem a hacc))
    rw [show (l.foldl applyAcc (applyAcc m a)) = applyAccs (applyAcc m a) l from rfl] at *
    rw [h3]
    exact applyAcc_content m hInv hps a x (hno a (List.mem_cons_self a l))

theorem foldl_set_zero_content (l : List Nat) :
    ∀ (m : cVirtualMemory), m.Inv → 0 < m.pageSize →
      ∀ x, (l.foldl (fun mm i => mm.set i 0) m).content x =
        if x ∈ l then 0 else m.content x := by
  induction l with
  | nil => intro m _ _ x; simp
  | cons a l ih =>
    intro m hInv hps x
    rw [List.foldl_cons]
    rw [ih (m.set a 0) (set_Inv m a 0) (by rw [set_pageSize]; exact hps) x]
    by_cases hx : x ∈ l
    · rw [if_pos hx, if_pos (List.mem_cons_of_mem a hx)]
    · rw [if_neg hx, set_content m hInv hps a 0 x]
      by_cases hxa : x = a
      · rw [if_pos hxa, if_pos (by rw [hxa]; exact List.mem_cons_self a l)]
      · rw [if_neg hxa, if_neg (by simp [hxa, hx])]

theorem foldl_set_zero_Inv (l : List Nat) :
    ∀ (m : cVirtualMemory), m.Inv → (l.foldl (fun mm i => mm.set i 0) m).Inv := by
  induction l with
  | nil => intro m hInv; exact hInv
  | cons a l ih =>
    intro m hInv
    rw [List.foldl_cons]
    exact ih (m.set a 0) (set_Inv m a 0)

theorem foldl_set_zero_pageSize (l : List Nat) :
    ∀ (m : cVirtualMemory), (l.foldl (fun mm i => mm.set i 0) m).pageSize = m.pageSize := by
  induction l with
  | nil => intro m; rfl
  | cons a l ih =>
    intro m
    rw [List.foldl_cons, ih (m.set a 0), set_pageSize]

end cVirtualMemory

theorem clearMemory_content (m : cVirtualMemory) (hInv : m.Inv) (hps : 0 < m.pageSize)
    (x : Nat) :
    (clearMemory m).content x = if x < MEMORY_SIZE then 0 else m.content x := by
  unfold clearMemory
  rw [cVirtualMemory.foldl_set_zero_content (List.range MEMORY_SIZE) m hInv hps x]
  by_cases hx : x < MEMORY_SIZE
  · rw [if_pos (List.mem_range.mpr hx), if_pos hx]
  · rw [if_neg (fun h => hx (List.mem_range.mp h)), if_neg hx]

theorem clearMemory_Inv (m : cVirtualMemory) (hInv : m.Inv) : (clearMemory m).Inv :=
  cVirtualMemory.foldl_set_zero_Inv (List.range MEMORY_SIZE) m hInv

theorem clearMemory_pageSize (m : cVirtualMemory) :
    (clearMemory m).pageSize = m.pageSize :=
  cVirtualMemory.foldl_set_zero_pageSize (List.range MEMORY_SIZE) m

theorem toU32_natCast (n : Nat) (h : n < 4294967296) : toU32 (n : Int) = n := by
  unfold toU32
  omega

theorem stepCount_addrMP (s : Interp) : (stepCount s).addrMP = s.addrMP := by
  unfold stepCount setIdle
  split
  · dsimp only
    split <;> rfl
  · rfl

theorem stepCount_memory (s : Interp) : (stepCount s).memory = s.memory := by
  unfold stepCount setIdle
  split
  · dsimp only
    split <;> rfl
  · rfl

theorem stepCount_program (s : Interp) : (stepCount s).program = s.program := by
  unfold stepCount setIdle
  split
  · dsimp only
    split <;> rfl
  · rfl

/-- A non-IDLE tick whose instruction pointer passes the (inclusive) bounds
check reduces to the opcode dispatch followed by the unconditional
`++addrIP` and the STEP countdown. -/
theorem tick_run (s : Interp) (inp : List Nat) (i : Nat)
    (hmode : s.runMode ≠ RunMode.IDLE)
    (hip : s.addrIP = (i : Int)) (hib : i ≤ s.program.fileSize)
    (hi32 : i < 4294967296) :
    tick s inp =
      (let s1 : Interp := { s with memory := (s.memory.get (toU32 s.addrMP)).2,
                                   program := (s.program.get i).2 }
       let mem := (s.memory.get (toU32 s.addrMP)).1
       let op := (s.program.get i).1
       let r := dispatch s1 inp mem op
       (stepCount { r.1 with addrIP := r.1.addrIP + 1 }, r.2.1,
        (if s.listRunning then [Msg.trace s.addrIP op s.addrMP mem] else []) ++ r.2.2)) := by
  unfold tick
  rw [if_neg hmode]
  unfold tickCore
  dsimp only
  rw [hip, toU32_natCast i hi32]
  have hbnd : ((s.program.get i).2).isInBounds i = true := by
    simp only [cVirtualMemory.isInBounds, decide_eq_true_eq, cVirtualMemory.get_snd_fileSize]
    exact hib
  rw [if_pos hbnd]
  have hmode2 : ({ s with memory := (s.memory.get (toU32 s.addrMP)).2,
                          program := (s.program.get i).2 } : Interp).runMode = s.runMode := rfl
  rw [hmode2]
  cases hrm : s.runMode with
  | IDLE => exact absurd hrm hmode
  | RUN => rw [if_pos (Or.inl rfl)]
  | STEP => rw [if_pos (Or.inr rfl)]

theorem dispatch_plus (s : Interp) (inp : List Nat) (mem : Nat) :
    dispatch s inp mem 43 =
      ({ s with memory := s.memory.set (toU32 s.addrMP) ((mem + 1) % 256) }, inp, []) := by
  norm_num [dispatch]

theorem dispatch_minus (s : Interp) (inp : List Nat) (mem : Nat) :
    dispatch s inp mem 45 =
      ({ s with memory := s.memory.set (toU32 s.addrMP) ((mem + 255) % 256) }, inp, []) := by
  norm_num [dispatch]

theorem dispatch_comma (s : Interp) (inp : List Nat) (mem : Nat) :
    dispatch s inp mem 44 =
      bracketOpen { s with memory := s.memory.set (toU32 s.addrMP) (inp.headD 0 % 256) }
        inp.tail (inp.headD 0 % 256) := by
  norm_num [dispatch]

theorem bracketOpen_steps (s : Interp) (inp : List Nat) (mem : Nat) :
    (bracketOpen s inp mem).1.steps = s.steps := by
  unfold bracketOpen setIdle
  dsimp only
  split_ifs <;> rfl

theorem bracketClose_steps (s : Interp) (inp : List Nat) (mem : Nat) :
    (bracketClose s inp mem).1.steps = s.steps := by
  unfold bracketClose setIdle
  dsimp only
  split_ifs <;> rfl

theorem bracketOpen_runMode_cases (s : Interp) (inp : List Nat) (mem : Nat) :
    (bracketOpen s inp mem).1.runMode = s.runMode ∨
    (bracketOpen s inp mem).1.runMode = RunMode.IDLE := by
  unfold bracketOpen setIdle
  dsimp only
  split_ifs <;> simp

theorem bracketClose_runMode_cases (s : Interp) (inp : List Nat) (mem : Nat) :
    (bracketClose s inp mem).1.runMode = s.runMode ∨
    (bracketClose s inp mem).1.runMode = RunMode.IDLE := by
  unfold bracketClose setIdle
  dsimp only
  split_ifs <;> simp

theorem dispatch_steps (s : Interp) (inp : List Nat) (mem op : Nat) :
    (dispatch s inp mem op).1.steps = s.steps := by
  unfold dispatch
  dsimp only
  split_ifs <;> simp [bracketOpen_steps, bracketClose_steps]

theorem dispatch_runMode_cases (s : Interp) (inp : List Nat) (mem op : Nat) :
    (dispatch s inp mem op).1.runMode = s.runMode ∨
    (dispatch s inp mem op).1.runMode = RunMode.IDLE := by
  unfold dispatch
  dsimp only
  split_ifs <;>
    first
      | exact Or.inl rfl
      | exact bracketOpen_runMode_cases _ _ _
      | exact bracketClose_runMode_cases _ _ _

theorem tickCore_steps (s : Interp) (inp : List Nat) :
    (tickCore s inp).1.steps = s.steps := by
  unfold tickCore setIdle
  dsimp only
  split_ifs <;> simp [dispatch_steps]

theorem tickCore_runMode_cases (s : Interp) (inp : List Nat) :
    (tickCore s inp).1.runMode = s.runMode ∨
    (tickCore s inp).1.runMode = RunMode.IDLE := by
  unfold tickCore setIdle
  dsimp only
  split_ifs
  all_goals try exact Or.inl rfl
  all_goals try exact Or.inr rfl
  all_goals
    rcases dispatch_runMode_cases _ inp _ _ with h | h
    · first
        | exact Or.inl h
        | exact Or.inr h
    · exact Or.inr h

/-- One tick from STEP mode with `n` steps left (1 ≤ n ≤ 65535), whose
dispatch does not go Idle (no end-of-program, no bracket error), decrements
the counter and goes Idle exactly when it reaches 0. -/
theorem tick_step_countdown (s : Interp) (inp : List Nat) (n : Nat)
    (hmode : s.runMode = RunMode.STEP) (hst : s.steps = n) (h1 : 1 ≤ n) (h2 : n ≤ 65535)
    (hnoidle : (tickCore s inp).1.runMode ≠ RunMode.IDLE) :
    (tick s inp).1.steps = n - 1 ∧
    (tick s inp).1.runMode = (if n = 1 then RunMode.IDLE else RunMode.STEP) := by
  have hmode2 : (tickCore s inp).1.runMode = RunMode.STEP := by
    rcases tickCore_runMode_cases s inp with h | h
    · rw [h, hmode]
    · exact absurd h hnoidle
  unfold tick
  rw [if_neg (by rw [hmode]; exact fun h => RunMode.noConfusion h)]
  dsimp only
  unfold stepCount
  rw [if_pos hmode2]
  rw [tickCore_steps, hst]
  dsimp only
  have hdec : (n + 65535) % 65536 = n - 1 := by omega
  rw [hdec]
  by_cases hn : n = 1
  · subst hn
    rw [if_pos (by omega)]
    exact ⟨rfl, by rw [if_pos rfl]; rfl⟩
  · rw [if_neg (by omega)]
    refine ⟨rfl, ?_⟩
    rw [if_neg hn]
    exact hmode2

theorem applyAccs_Inv (l : List Access) :
    ∀ (m : cVirtualMemory), m.Inv → (applyAccs m l).Inv := by
  induction l with
  | nil => intro m hInv; exact hInv
  | cons a l ih =>
    intro m hInv
    show (l.foldl applyAcc (applyAcc m a)).Inv
    exact ih (applyAcc m a) (cVirtualMemory.applyAcc_Inv m hInv a)

theorem applyAccs_pageSize (l : List Access) :
    ∀ (m : cVirtualMemory), (applyAccs m l).pageSize = m.pageSize := by
  induction l with
  | nil => intro m; rfl
  | cons a l ih =>
    intro m
    show (l.foldl applyAcc (applyAcc m a)).pageSize = m.pageSize
    rw [show l.foldl applyAcc (applyAcc m a) = applyAccs (applyAcc m a) l from rfl]
    rw [ih (applyAcc m a), cVirtualMemory.applyAcc_pageSize]

theorem Inv_of_pageChanged_true (m : cVirtualMemory) (h : m.pageChanged = true) :
    m.Inv := by
  intro hf
  rw [h] at hf
  cases hf

theorem Inv_zero_base (m : cVirtualMemory) (hb : m.pageBaseAddr = 0)
    (hpd : ∀ k, m.pageData k = m.store k) : m.Inv := by
  intro _ k hk
  rw [hb, Nat.zero_add, hpd]

/-- C4: `isInBounds(addr)` returns true exactly when `addr <= storeSize`;
in particular the address equal to the store size is reported in bounds,
although it fails the half-open test `addr < storeSize`. -/
theorem vm_isInBounds_inclusive (m : cVirtualMemory) (addr : Nat) :
    (m.isInBounds addr = true ↔ addr ≤ m.fileSize) ∧
    m.isInBounds m.fileSize = true ∧ ¬ m.fileSize < m.fileSize := by
  refine ⟨?_, ?_, ?_⟩
  · simp [cVirtualMemory.isInBounds]
  · simp [cVirtualMemory.isInBounds]
  · omega

/-- C2: read-after-write survives arbitrary interleaved in-bounds accesses,
including ones that force page evictions: after `set(addr, v)` and any
sequence of accesses that do not write to `addr`, `get(addr)` returns
`v`. -/
theorem vm_read_after_write_survives (m : cVirtualMemory) (addr v : Nat)
    (accs : List Access)
    (hInv : m.Inv) (hps : 0 < m.pageSize) (hbound : addr ≤ m.fileSize) (hv : v < 256)
    (hother : ∀ acc ∈ accs, acc.addr ≤ m.fileSize ∧ acc.writes ≠ some addr) :
    ((applyAccs (m.set addr v) accs).get addr).1 = v := by
  have h1 : (m.set addr v).Inv := cVirtualMemory.set_Inv m addr v
  have h2 : 0 < (m.set addr v).pageSize := by
    rw [cVirtualMemory.set_pageSize]; exact hps
  have h3 : (applyAccs (m.set addr v) accs).content addr = (m.set addr v).content addr :=
    cVirtualMemory.applyAccs_content accs (m.set addr v) h1 h2 addr
      (fun acc hacc => (hother acc hacc).2)
  have h4 : (applyAccs (m.set addr v) accs).Inv := applyAccs_Inv accs (m.set addr v) h1
  have h5 : 0 < (applyAccs (m.set addr v) accs).pageSize := by
    rw [applyAccs_pageSize]; exact h2
  rw [cVirtualMemory.get_fst _ h4 h5 addr, h3,
    cVirtualMemory.set_content m hInv hps addr v addr, if_pos rfl,
    Nat.mod_eq_of_lt hv]

/-- C2 witness: on a page-size-2 memory, `set(1, 5)` survives a read in a
different page, a write to a different address, and another page-crossing
read. -/
theorem vm_read_after_write_survives_witness :
    wVM2.Inv ∧ 0 < wVM2.pageSize ∧ (1 : Nat) ≤ wVM2.fileSize ∧ (5 : Nat) < 256 ∧
    (∀ acc ∈ [Access.rd 4, Access.wr 5 9, Access.rd 0],
      acc.addr ≤ wVM2.fileSize ∧ acc.writes ≠ some 1) ∧
    ((applyAccs (wVM2.set 1 5) [Access.rd 4, Access.wr 5 9, Access.rd 0]).get 1).1 = 5 := by
  refine ⟨?_, ?_, ?_, ?_, ?_, ?_⟩
  · intro h k hk
    rfl
  · decide
  · decide
  · decide
  · decide
  · exact vm_read_after_write_survives wVM2 1 5 [Access.rd 4, Access.wr 5 9, Access.rd 0]
      (fun h k hk => rfl) (by decide) (by decide) (by decide) (by decide)

/-- C7: `+` and `-` add and subtract 1 mod 256 on the byte at the current
cell (so 255 wraps to 0 under `+` and 0 wraps to 255 under `-`). -/
theorem bf_cell_arithmetic_mod256 (s : Interp) (inp : List Nat) (i : Nat)
    (hInvP : s.program.Inv) (hpsP : 0 < s.program.pageSize)
    (hInvM : s.memory.Inv) (hpsM : 0 < s.memory.pageSize)
    (hfs : s.program.fileSize < 2147483648)
    (hmode : s.runMode ≠ RunMode.IDLE)
    (hip : s.addrIP = (i : Int)) (hib : i ≤ s.program.fileSize) :
    (s.program.content i = 43 →
      ((tick s inp).1.memory).content (toU32 s.addrMP) =
        (s.memory.content (toU32 s.addrMP) + 1) % 256) ∧
    (s.program.content i = 45 →
      ((tick s inp).1.memory).content (toU32 s.addrMP) =
        (s.memory.content (toU32 s.addrMP) + 255) % 256) := by
  have hgp : (s.program.get i).1 = s.program.content i :=
    cVirtualMemory.get_fst s.program hInvP hpsP i
  have hgm : (s.memory.get (toU32 s.addrMP)).1 = s.memory.content (toU32 s.addrMP) :=
    cVirtualMemory.get_fst s.memory hInvM hpsM _
  have hIm : ((s.memory.get (toU32 s.addrMP)).2).Inv :=
    cVirtualMemory.get_snd_Inv s.memory hInvM _
  have hpm : 0 < ((s.memory.get (toU32 s.addrMP)).2).pageSize := by
    rw [cVirtualMemory.get_snd_pageSize]; exact hpsM
  have hcm : ∀ x, ((s.memory.get (toU32 s.addrMP)).2).content x = s.memory.content x :=
    fun x => cVirtualMemory.get_snd_content s.memory hInvM _ x
  constructor
  · intro hop
    rw [tick_run s inp i hmode hip hib (by omega)]
    dsimp only
    rw [hgp, hgm, hop, dispatch_plus]
    dsimp only
    rw [stepCount_memory]
    dsimp only
    rw [cVirtualMemory.set_content _ hIm hpm _ _ _, if_pos rfl]
    omega
  · intro hop
    rw [tick_run s inp i hmode hip hib (by omega)]
    dsimp only
    rw [hgp, hgm, hop, dispatch_minus]
    dsimp only
    rw [stepCount_memory]
    dsimp only
    rw [cVirtualMemory.set_content _ hIm hpm _ _ _, if_pos rfl]
    omega

/-- C7 witness: `+` on a cell holding 255 yields 0, and `-` on a cell
holding 0 yields 255, at concrete one-instruction programs. -/
theorem bf_cell_arithmetic_mod256_witness :
    wMem255.content (toU32 (0 : Int)) = 255 ∧ wProgPlus.content 0 = 43 ∧
    ((tick ⟨wProgPlus, wMem255, 0, 0, false, RunMode.RUN, 0⟩ []).1.memory).content
      (toU32 (0 : Int)) = 0 ∧
    wMemZero.content (toU32 (0 : Int)) = 0 ∧ wProgMinus.content 0 = 45 ∧
    ((tick ⟨wProgMinus, wMemZero, 0, 0, false, RunMode.RUN, 0⟩ []).1.memory).content
      (toU32 (0 : Int)) = 255 := by
  refine ⟨by decide, by decide, ?_, by decide, by decide, ?_⟩
  · have h := (bf_cell_arithmetic_mod256 ⟨wProgPlus, wMem255, 0, 0, false, RunMode.RUN, 0⟩
      [] 0 (Inv_zero_base _ rfl (fun k => rfl)) (by decide)
      (Inv_of_pageChanged_true _ rfl) (by decide) (by decide)
      (by decide) rfl (by decide)).1 (by decide)
    rw [h]
    decide
  · have h := (bf_cell_arithmetic_mod256 ⟨wProgMinus, wMemZero, 0, 0, false, RunMode.RUN, 0⟩
      [] 0 (Inv_zero_base _ rfl (fun k => rfl)) (by decide)
      (Inv_zero_base _ rfl (fun k => rfl)) (by decide) (by decide)
      (by decide) rfl (by decide)).2 (by decide)
    rw [h]
    decide

/-- C3 (code bug): in BF-Explorer.ino, `case ','` has no `break` and falls
through into `case '['`.  On the program `",]"` with input byte 0, the `,`
tick stores 0 and then runs the bracket-open forward scan, ending with
`addrIP = 2` (one past the `]`) instead of 1; with input byte 1 the same
tick ends at 1.  So `,` does trigger the forward scan, and whether it does
depends on the byte read — contradicting the claim on both points. -/
theorem bf_comma_falls_through_to_bracket :
    (tick ⟨wProgComma, wMemZero, 0, 0, false, RunMode.RUN, 0⟩ [0]).1.addrIP = 2 ∧
    (tick ⟨wProgComma, wMemZero, 0, 0, false, RunMode.RUN, 0⟩ [1]).1.addrIP = 1 ∧
    ((tick ⟨wProgComma, wMemZero, 0, 0, false, RunMode.RUN, 0⟩ [0]).1.memory.get 0).1 = 0 ∧
    ((tick ⟨wProgComma, wMemZero, 0, 0, false, RunMode.RUN, 0⟩ [1]).1.memory.get 0).1 = 1 := by
  refine ⟨?_, ?_, ?_, ?_⟩ <;> decide

/-- C6 counterexample: `step(65537)` does not put the controller in
Stepping(65537): the `uint16_t` step counter truncates the argument, so the
controller is left in Stepping(1). -/
theorem handlerS_truncates_cex :
    (handlerS ⟨wProgPP, wMemZero, 0, 0, false, RunMode.IDLE, 0⟩ (some 65537)).runMode =
      RunMode.STEP ∧
    (handlerS ⟨wProgPP, wMemZero, 0, 0, false, RunMode.IDLE, 0⟩ (some 65537)).steps = 1 ∧
    (1 : Nat) ≠ 65537 := by
  refine ⟨rfl, by decide, by decide⟩

/-- C6 (amended): for 1 ≤ n ≤ 65535, `step(n)` puts the controller in
Stepping(n) (n defaults to 1 when unspecified; larger arguments truncate
mod 65536); from Stepping(n), provided no tick's dispatch goes Idle early
(instruction pointer stays in bounds, no bracket error), the controller
executes one instruction per tick, holds STEP with count `n - k` after `k`
ticks, and transitions to IDLE with count 0 exactly at the `n`-th tick.
The state is quantified over both values of the trace toggle. -/
theorem step_countdown_exact :
    (∀ (s : Interp) (n : Nat), 1 ≤ n → n ≤ 65535 →
      (handlerS s (some n)).runMode = RunMode.STEP ∧ (handlerS s (some n)).steps = n) ∧
    (∀ s : Interp,
      (handlerS s none).runMode = RunMode.STEP ∧ (handlerS s none).steps = 1) ∧
    (∀ (s : Interp) (inp : List Nat) (n : Nat),
      s.runMode = RunMode.STEP → s.steps = n → 1 ≤ n → n ≤ 65535 →
      (∀ k, k < n →
        (tickCore (tickN k s inp).1 (tickN k s inp).2.1).1.runMode ≠ RunMode.IDLE) →
      (∀ k, k < n → (tickN k s inp).1.runMode = RunMode.STEP ∧
        (tickN k s inp).1.steps = n - k) ∧
      (tickN n s inp).1.runMode = RunMode.IDLE ∧ (tickN n s inp).1.steps = 0) := by
  refine ⟨?_, ?_, ?_⟩
  · intro s n h1 h2
    exact ⟨rfl, by simp [handlerS]; omega⟩
  · intro s
    exact ⟨rfl, rfl⟩
  · intro s inp n hmode hst h1 h2 hsafe
    have main : ∀ k, k ≤ n →
        (k < n → (tickN k s inp).1.runMode = RunMode.STEP ∧
          (tickN k s inp).1.steps = n - k) ∧
        (k = n → (tickN k s inp).1.runMode = RunMode.IDLE ∧
          (tickN k s inp).1.steps = 0) := by
      intro k
      induction k with
      | zero =>
        intro _
        constructor
        · intro _
          refine ⟨hmode, ?_⟩
          show s.steps = n - 0
          omega
        · intro h0
          omega
      | succ k ih =>
        intro hk
        have hklt : k < n := by omega
        obtain ⟨hmk, hsk⟩ := (ih (by omega)).1 hklt
        have hone := tick_step_countdown (tickN k s inp).1 (tickN k s inp).2.1 (n - k)
          hmk hsk (by omega) (by omega) (hsafe k hklt)
        have heq1 : (tickN (k + 1) s inp).1 =
            (tick (tickN k s inp).1 (tickN k s inp).2.1).1 := rfl
        constructor
        · intro hlt2
          refine ⟨?_, ?_⟩
          · rw [heq1]
            have h := hone.2
            rw [if_neg (by omega)] at h
            exact h
          · rw [heq1, hone.1]
            omega
        · intro heqn
          refine ⟨?_, ?_⟩
          · rw [heq1]
            have h := hone.2
            rw [if_pos (by omega)] at h
            exact h
          · rw [heq1, hone.1]
            omega
    exact ⟨fun k hk => (main k (by omega)).1 hk, (main n (le_refl n)).2 rfl⟩

/-- C6 witness: stepping the two-instruction program `"++"` with n = 2
executes both ticks in STEP mode and lands IDLE with count 0. -/
theorem step_countdown_exact_witness :
    (⟨wProgPP, wMemZero, 0, 0, false, RunMode.STEP, 2⟩ : Interp).runMode = RunMode.STEP ∧
    (⟨wProgPP, wMemZero, 0, 0, false, RunMode.STEP, 2⟩ : Interp).steps = 2 ∧
    (∀ k, k < 2 →
      (tickCore (tickN k (⟨wProgPP, wMemZero, 0, 0, false, RunMode.STEP, 2⟩ : Interp) []).1
        (tickN k (⟨wProgPP, wMemZero, 0, 0, false, RunMode.STEP, 2⟩ : Interp) []).2.1).1.runMode ≠
        RunMode.IDLE) ∧
    (handlerS (⟨wProgPP, wMemZero, 0, 0, false, RunMode.IDLE, 0⟩ : Interp) (some 5)).steps = 5 ∧
    (tickN 2 (⟨wProgPP, wMemZero, 0, 0, false, RunMode.STEP, 2⟩ : Interp) []).1.runMode =
      RunMode.IDLE ∧
    (tickN 2 (⟨wProgPP, wMemZero, 0, 0, false, RunMode.STEP, 2⟩ : Interp) []).1.steps = 0 := by
  refine ⟨rfl, rfl, by decide, ?_, ?_, ?_⟩
  · exact (step_countdown_exact.1
      (⟨wProgPP, wMemZero, 0, 0, false, RunMode.IDLE, 0⟩ : Interp) 5
      (by omega) (by omega)).2
  · exact (step_countdown_exact.2.2
      (⟨wProgPP, wMemZero, 0, 0, false, RunMode.STEP, 2⟩ : Interp) [] 2
      rfl rfl (by omega) (by omega) (by decide)).2.1
  · exact (step_countdown_exact.2.2
      (⟨wProgPP, wMemZero, 0, 0, false, RunMode.STEP, 2⟩ : Interp) [] 2
      rfl rfl (by omega) (by omega) (by decide)).2.2


theorem begin_true (m : cVirtualMemory) (st : Nat → Nat) (sz : Nat) :
    m.begin true st sz =
      (({ m with store := st, fileSize := sz, isOpen := true } :
          cVirtualMemory).loadPage 0, true) := by
  unfold cVirtualMemory.begin
  rw [if_pos rfl]

/-- C8 counterexample: `load` invoked while Running does not leave the run
mode unchanged — the handler's unconditional trailing `setIdle()` switches
the controller from RUN to IDLE. -/
theorem load_while_running_goes_idle_cex :
    (⟨wProgBr, wMem7, 5, 5, false, RunMode.RUN, 3⟩ : Interp).runMode = RunMode.RUN ∧
    (handlerL ⟨wProgBr, wMem7, 5, 5, false, RunMode.RUN, 3⟩ true wBytesBr 2).runMode =
      RunMode.IDLE ∧
    RunMode.RUN ≠ RunMode.IDLE := by
  refine ⟨rfl, ?_, by decide⟩
  decide

/-- C8 (amended): `load` invoked while Running or Stepping is ignored —
program, memory and both pointers are untouched — but the handler's
trailing `setIdle()` still forces the run mode to Idle (and no
invalid-transition report is emitted).  Invoked from Idle with a
successful open, it clears the data memory, zeroes both pointers and
leaves the controller Idle. -/
theorem load_transitions :
    (∀ (s : Interp) (ok : Bool) (st : Nat → Nat) (sz : Nat), s.runMode ≠ RunMode.IDLE →
      (handlerL s ok st sz).program = s.program ∧
      (handlerL s ok st sz).memory = s.memory ∧
      (handlerL s ok st sz).addrIP = s.addrIP ∧
      (handlerL s ok st sz).addrMP = s.addrMP ∧
      (handlerL s ok st sz).runMode = RunMode.IDLE) ∧
    (∀ (s : Interp) (st : Nat → Nat) (sz : Nat),
      s.runMode = RunMode.IDLE → s.memory.Inv → 0 < s.memory.pageSize →
      (handlerL s true st sz).runMode = RunMode.IDLE ∧
      (handlerL s true st sz).addrIP = 0 ∧
      (handlerL s true st sz).addrMP = 0 ∧
      (∀ a, a < MEMORY_SIZE → (handlerL s true st sz).memory.content a = 0)) := by
  constructor
  · intro s ok st sz hmode
    unfold handlerL
    rw [if_neg hmode]
    exact ⟨rfl, rfl, rfl, rfl, rfl⟩
  · intro s st sz hmode hInv hps
    unfold handlerL
    rw [if_pos hmode]
    dsimp only
    rw [begin_true]
    dsimp only
    rw [if_pos rfl]
    refine ⟨rfl, rfl, rfl, ?_⟩
    intro a ha
    dsimp only [setIdle]
    rw [clearMemory_content s.memory hInv hps a, if_pos ha]

/-- C8 witness: loading while RUN leaves program, memory and pointers
unchanged but forces IDLE; loading from IDLE zeroes cell 0 (which held 7)
and both pointers. -/
theorem load_transitions_witness :
    (⟨wProgBr, wMem7, 5, 5, false, RunMode.RUN, 3⟩ : Interp).runMode ≠ RunMode.IDLE ∧
    (handlerL ⟨wProgBr, wMem7, 5, 5, false, RunMode.RUN, 3⟩ true wBytesBr 2).memory = wMem7 ∧
    (handlerL ⟨wProgBr, wMem7, 5, 5, false, RunMode.RUN, 3⟩ true wBytesBr 2).addrIP = 5 ∧
    wMem7.Inv ∧ 0 < wMem7.pageSize ∧ (0 : Nat) < MEMORY_SIZE ∧
    (handlerL ⟨wProgBr, wMem7, 5, 5, false, RunMode.IDLE, 3⟩ true wBytesBr 2).memory.content 0
      = 0 ∧
    (handlerL ⟨wProgBr, wMem7, 5, 5, false, RunMode.IDLE, 3⟩ true wBytesBr 2).addrIP = 0 := by
  refine ⟨by decide, ?_, ?_, Inv_of_pageChanged_true _ rfl, by decide, by decide, ?_, ?_⟩
  · exact (load_transitions.1 ⟨wProgBr, wMem7, 5, 5, false, RunMode.RUN, 3⟩ true wBytesBr 2
      (by decide)).2.1
  · exact (load_transitions.1 ⟨wProgBr, wMem7, 5, 5, false, RunMode.RUN, 3⟩ true wBytesBr 2
      (by decide)).2.2.1
  · exact (load_transitions.2 ⟨wProgBr, wMem7, 5, 5, false, RunMode.IDLE, 3⟩ wBytesBr 2
      rfl (Inv_of_pageChanged_true _ rfl) (by decide)).2.2.2 0 (by decide)
  · exact (load_transitions.2 ⟨wProgBr, wMem7, 5, 5, false, RunMode.IDLE, 3⟩ wBytesBr 2
      rfl (Inv_of_pageChanged_true _ rfl) (by decide)).2.1

/-- C9 counterexample: `run` on an Idle controller with a loaded program
starts execution (mode becomes RUN) without resetting the data memory —
cell 0, left at 7 by a previous run, still reads 7. -/
theorem run_does_not_clear_memory_cex :
    (handlerR ⟨wProgBr, wMem7, 0, 0, false, RunMode.IDLE, 0⟩).1.runMode = RunMode.RUN ∧
    ((handlerR ⟨wProgBr, wMem7, 0, 0, false, RunMode.IDLE, 0⟩).1.memory.get 0).1 = 7 ∧
    (7 : Nat) ≠ 0 := by
  refine ⟨by decide, by decide, by decide⟩

/-- C9 (amended): the zero-fill happens at load, not before each run:
`clearMemory` (called from the load handler) writes every one of the
MEMORY_SIZE cells to 0 through the paging `set`, so each cell reads back 0;
`handlerR` itself touches neither the data memory nor the pointers. -/
theorem clear_memory_at_load :
    (∀ (m : cVirtualMemory), m.Inv → 0 < m.pageSize →
      ∀ a, a < MEMORY_SIZE → ((clearMemory m).get a).1 = 0) ∧
    (∀ s : Interp, (handlerR s).1.memory = s.memory ∧
      (handlerR s).1.addrIP = s.addrIP ∧ (handlerR s).1.addrMP = s.addrMP) := by
  constructor
  · intro m hInv hps a ha
    rw [cVirtualMemory.get_fst _ (clearMemory_Inv m hInv)
      (by rw [clearMemory_pageSize]; exact hps) a]
    rw [clearMemory_content m hInv hps a, if_pos ha]
  · intro s
    unfold handlerR
    split_ifs <;> exact ⟨rfl, rfl, rfl⟩

/-- C9 witness: cell 0 of `wMem7` reads 7, reads 0 after `clearMemory`,
and is untouched by `handlerR`. -/
theorem clear_memory_at_load_witness :
    wMem7.Inv ∧ 0 < wMem7.pageSize ∧ (0 : Nat) < MEMORY_SIZE ∧
    (wMem7.get 0).1 = 7 ∧
    ((clearMemory wMem7).get 0).1 = 0 ∧
    (handlerR ⟨wProgBr, wMem7, 0, 0, false, RunMode.IDLE, 0⟩).1.memory = wMem7 := by
  refine ⟨Inv_of_pageChanged_true _ rfl, by decide, by decide, by decide, ?_, ?_⟩
  · exact clear_memory_at_load.1 wMem7 (Inv_of_pageChanged_true _ rfl) (by decide) 0
      (by decide)
  · exact (clear_memory_at_load.2 ⟨wProgBr, wMem7, 0, 0, false, RunMode.IDLE, 0⟩).1

theorem dumpReads_spec (m : cVirtualMemory) (hInv : m.Inv) (hps : 0 < m.pageSize)
    (addr : Nat) :
    ∀ n, (dumpReads m addr n).2.1 = List.replicate n (m.content (addr + 1)) ∧
      (dumpReads m addr n).2.2 = List.replicate n (addr + 1) ∧
      (∀ x, (dumpReads m addr n).1.content x = m.content x) ∧
      (dumpReads m addr n).1.Inv ∧
      (dumpReads m addr n).1.pageSize = m.pageSize := by
  intro n
  induction n with
  | zero =>
    exact ⟨rfl, rfl, fun x => rfl, hInv, rfl⟩
  | succ n ih =>
    obtain ⟨hv, hr, hc, hI, hp⟩ := ih
    have hg : ((dumpReads m addr n).1.get (addr + 1)).1 = m.content (addr + 1) := by
      rw [cVirtualMemory.get_fst _ hI (by rw [hp]; exact hps) _, hc]
    refine ⟨?_, ?_, ?_, ?_, ?_⟩
    · show (dumpReads m addr n).2.1 ++ [((dumpReads m addr n).1.get (addr + 1)).1] = _
      rw [hv, hg, ← List.replicate_succ']
    · show (dumpReads m addr n).2.2 ++ [addr + 1] = _
      rw [hr, ← List.replicate_succ']
    · intro x
      show ((dumpReads m addr n).1.get (addr + 1)).2.content x = _
      rw [cVirtualMemory.get_snd_content _ hI _ x, hc]
    · exact cVirtualMemory.get_snd_Inv _ hI _
    · show ((dumpReads m addr n).1.get (addr + 1)).2.pageSize = _
      rw [cVirtualMemory.get_snd_pageSize, hp]

/-- C10: every one of the eight hex-column entries and eight ASCII-column
entries of the memory dump renders the byte at `base + 1`, and the dump
reads no address other than `base + 1` (sixteen reads in total). -/
theorem dump_reads_only_base_plus_one (m : cVirtualMemory) (addr : Nat)
    (hInv : m.Inv) (hps : 0 < m.pageSize) :
    (handlerD m addr).2.1 =
      List.replicate 8 (htoa (m.content (addr + 1) / 16), htoa (m.content (addr + 1) % 16)) ∧
    (handlerD m addr).2.2.1 =
      List.replicate 8 (if m.content (addr + 1) ≤ 10 then 46 else m.content (addr + 1)) ∧
    (handlerD m addr).2.2.2 = List.replicate 16 (addr + 1) := by
  obtain ⟨hv1, hr1, hc1, hI1, hp1⟩ := dumpReads_spec m hInv hps addr 8
  obtain ⟨hv2, hr2, hc2, hI2, hp2⟩ :=
    dumpReads_spec (dumpReads m addr 8).1 hI1 (by rw [hp1]; exact hps) addr 8
  unfold handlerD
  dsimp only
  refine ⟨?_, ?_, ?_⟩
  · rw [hv1, List.map_replicate]
  · rw [hv2, hc1, List.map_replicate]
  · rw [hr1, hr2, show (16 : Nat) = 8 + 8 from rfl, List.replicate_add]

/-- C10 witness: dumping from base 0 over `wMem7` shows the byte at
address 1 (which is 0, rendered `"00"` and `'.'`) in all sixteen
positions, and reads address 1 sixteen times. -/
theorem dump_reads_only_base_plus_one_witness :
    wMem7.Inv ∧ 0 < wMem7.pageSize ∧ wMem7.content 1 = 0 ∧
    (handlerD wMem7 0).2.1 = List.replicate 8 (48, 48) ∧
    (handlerD wMem7 0).2.2.1 = List.replicate 8 46 ∧
    (handlerD wMem7 0).2.2.2 = List.replicate 16 1 := by
  have h := dump_reads_only_base_plus_one wMem7 0 (Inv_of_pageChanged_true _ rfl) (by decide)
  refine ⟨Inv_of_pageChanged_true _ rfl, by decide, by decide, ?_, ?_, ?_⟩
  · rw [h.1]
    decide
  · rw [h.2.1]
    decide
  · exact h.2.2
